import Mathlib

/-!
Shallow embedding of the PNG chunk tooling in `src/png.rs` (the current
revision of the repository; `src/lib.rs` is an earlier draft of the same
code and `PNGFile` in `png.rs` is the authority).

Modelling conventions:
  * a byte is `Fin 256`;
  * an open file being read is a `List Byte` together with an implicit
    cursor: `Read::read` into a zero-initialised buffer of size `n` is
    `readBuf n`, which returns the buffer contents (the next `min n len`
    bytes, zero-padded — exactly what `file.read(&mut buf)` leaves in a
    pre-zeroed buffer, since at end of file it returns `Ok(0)` and fills
    nothing, which `.unwrap()` happily accepts) and the remaining stream;
  * the `while !found_iend` loop of `PNGFile::from_file` is modelled with
    explicit fuel (one unit per iteration).  The Rust loop can genuinely
    run forever: once the stream is exhausted every iteration reads a
    chunk with length 0 and type `[0,0,0,0]`, which is valid UTF-8 and is
    not "IEND", so the loop never stops.  `LoadResult.outOfFuel` for every
    fuel value therefore means the Rust code diverges;
  * panics (`unwrap` on `str::from_utf8` of a non-UTF-8 chunk type,
    `panic!` calls in `IHDRData::from_chunk`, slice/index out-of-bounds in
    `get_last_modified` and `from_chunk`, `File::create(..).unwrap()` in
    `write`) are modelled as explicit `panicked` / error constructors.
-/

/-- A byte, as read from or written to a PNG stream. -/
abbrev Byte := Fin 256

/-- Models `file.read(&mut buf)` for a zero-initialised buffer of size `n`:
returns the buffer contents after the call (available bytes, zero-padded to
`n`) and the rest of the stream.  `File::read` returns `Ok(k)` with `k`
possibly `0` at end of file, so no error/panic can arise here. -/
def readBuf (n : Nat) (src : List Byte) : List Byte × List Byte :=
  (src.take n ++ List.replicate (n - src.length) (0 : Byte), src.drop n)

/-- Big-endian value of a byte list; on 4-byte lists this is
`u32::from_be_bytes`, on 2-byte lists `u16::from_be_bytes`. -/
def beVal (l : List Byte) : Nat :=
  l.foldl (fun a b => a * 256 + b.val) 0

/-- Models `u32::to_be_bytes`. -/
def be32 (n : Nat) : List Byte :=
  [⟨n / 16777216 % 256, by omega⟩, ⟨n / 65536 % 256, by omega⟩,
   ⟨n / 256 % 256, by omega⟩, ⟨n % 256, by omega⟩]

/-- The UTF-8 bytes of `"IHDR"`. -/
def IHDRtag : List Byte := [73, 72, 68, 82]

/-- The UTF-8 bytes of `"tIME"`. -/
def tIMEtag : List Byte := [116, 73, 77, 69]

/-- The UTF-8 bytes of `"IEND"`. -/
def IENDtag : List Byte := [73, 69, 78, 68]

/-- The constant `PNG_HEADER` (`png.rs` line 11). -/
def pngHeaderBytes : List Byte := [137, 80, 78, 71, 13, 10, 26, 10]

/-- UTF-8 continuation byte (`0x80`–`0xBF`). -/
def isCont (b : Byte) : Bool := 128 ≤ b.val && b.val ≤ 191

/-- Lower bound for the first continuation byte after lead byte `b`
(UTF-8 shortest-form restrictions: `E0`, `ED`, `F0`, `F4` are special). -/
def cont1Lo (b : Byte) : Nat :=
  if b.val = 224 then 160 else if b.val = 240 then 144 else 128

/-- Upper bound for the first continuation byte after lead byte `b`. -/
def cont1Hi (b : Byte) : Nat :=
  if b.val = 237 then 159 else if b.val = 244 then 143 else 191

/-- Models the success condition of `str::from_utf8`: whether a byte list
is valid UTF-8 (standard table, including shortest-form and surrogate
restrictions). -/
def validUtf8 : List Byte → Bool
  | [] => true
  | b :: rest =>
    if b.val ≤ 127 then validUtf8 rest
    else if b.val < 194 then false
    else
      match rest with
      | [] => false
      | c1 :: rest1 =>
        if b.val ≤ 223 then isCont c1 && validUtf8 rest1
        else
          match rest1 with
          | [] => false
          | c2 :: rest2 =>
            if b.val ≤ 239 then
              (decide (cont1Lo b ≤ c1.val) && decide (c1.val ≤ cont1Hi b)) &&
                isCont c2 && validUtf8 rest2
            else
              match rest2 with
              | [] => false
              | c3 :: rest3 =>
                if b.val ≤ 244 then
                  (decide (cont1Lo b ≤ c1.val) && decide (c1.val ≤ cont1Hi b)) &&
                    isCont c2 && isCont c3 && validUtf8 rest3
                else false

/-- One PNG chunk record (`pub struct PNGChunk`, `png.rs` lines 38–43). -/
structure PNGChunk where
  length : Nat
  chunk_type : List Byte
  data : List Byte
  crc : List Byte
deriving DecidableEq

/-- The whole-file model (`pub struct PNGFile`, `png.rs` lines 32–36). -/
structure PNGFile where
  ihdr_chunk : PNGChunk
  time_chunk : Option PNGChunk
  chunks : List PNGChunk
deriving DecidableEq

/-- One iteration's worth of reads inside the chunk loop of
`PNGFile::from_file` (`png.rs` lines 84–102): 4 length bytes (big-endian),
4 type bytes, `length` payload bytes, 4 CRC bytes.  Every read zero-pads at
end of file, so the produced chunk always has `chunk_type.length = 4`,
`crc.length = 4` and `data.length = length`. -/
def read_chunk (src : List Byte) : PNGChunk × List Byte :=
  let p1 := readBuf 4 src
  let length := beVal p1.1
  let p2 := readBuf 4 p1.2
  let p3 := readBuf length p2.2
  let p4 := readBuf 4 p3.2
  (⟨length, p2.1, p3.1, p4.1⟩, p4.2)

/-- Outcome of the `while !found_iend` loop. -/
inductive LoopResult where
  | done (ihdr : Option PNGChunk) (time : Option PNGChunk) (chunks : List PNGChunk)
  | panicked
  | outOfFuel
deriving DecidableEq

/-- The `while !found_iend` loop of `PNGFile::from_file` (`png.rs` lines
83–118), with explicit fuel.  After building the chunk the code calls
`str::from_utf8(&chunk_type).unwrap()` (line 103), which panics on invalid
UTF-8; then "IHDR" and "tIME" chunks are diverted into their dedicated
slots (later occurrences overwrite earlier ones), every other chunk is
appended, and the loop stops right after appending an "IEND" chunk. -/
def chunkLoop : Nat → List Byte → Option PNGChunk → Option PNGChunk → List PNGChunk → LoopResult
  | 0, _, _, _, _ => .outOfFuel
  | fuel + 1, src, ihdr, time, chunks =>
    let r := read_chunk src
    let chunk := r.1
    if validUtf8 chunk.chunk_type then
      if chunk.chunk_type = IHDRtag then chunkLoop fuel r.2 (some chunk) time chunks
      else if chunk.chunk_type = tIMEtag then chunkLoop fuel r.2 ihdr (some chunk) chunks
      else if chunk.chunk_type = IENDtag then .done ihdr time (chunks ++ [chunk])
      else chunkLoop fuel r.2 ihdr time (chunks ++ [chunk])
    else .panicked

/-- Result of `PNGFile::from_file`.  In the Rust code both failure returns
are the single error value `InvalidPNGFormat`; the two constructors below
record the two distinct return sites (line 75: signature mismatch, line
123: no IHDR chunk), which is what the spec's taxonomy names
`InvalidSignature` and `MissingHeaderChunk`. -/
inductive LoadResult where
  | ok (f : PNGFile)
  | invalidSignature
  | missingHeaderChunk
  | panicked
  | outOfFuel
deriving DecidableEq

/-- Models `PNGFile::from_file` (`png.rs` lines 68–124) on the byte stream
of the opened file.  The signature comparison
`header.iter().zip(PNG_HEADER.iter()).all(|(a, b)| a == b)` over two
8-byte arrays is list equality of the zero-padded first 8 bytes. -/
def PNGFile.from_file (fuel : Nat) (src : List Byte) : LoadResult :=
  let hdr := readBuf 8 src
  if hdr.1 = pngHeaderBytes then
    match chunkLoop fuel hdr.2 none none [] with
    | .done (some ihdr) time chunks => .ok ⟨ihdr, time, chunks⟩
    | .done none _ _ => .missingHeaderChunk
    | .panicked => .panicked
    | .outOfFuel => .outOfFuel
  else .invalidSignature

/-- Bytes emitted by `PNGChunk::write_to_file` (`png.rs` lines 181–189):
length (big-endian), type, payload, CRC, in that order, no padding. -/
def PNGChunk.writeBytes (c : PNGChunk) : List Byte :=
  be32 c.length ++ c.chunk_type ++ c.data ++ c.crc

/-- Bytes emitted by a fully successful `PNGFile::write` (`png.rs` lines
160–177): signature, IHDR chunk, tIME chunk if present, then the stored
chunks in order. -/
def PNGFile.writtenBytes (f : PNGFile) : List Byte :=
  pngHeaderBytes ++ f.ihdr_chunk.writeBytes ++
    (match f.time_chunk with
     | some t => t.writeBytes
     | none => []) ++
    (f.chunks.map PNGChunk.writeBytes).flatten

/-- Result of `PNGFile::write`.  `panicked` is the
`File::create(filename).unwrap()` on line 161: a create/truncate failure
aborts the process instead of returning an error. -/
inductive SaveResult where
  | ok (bytes : List Byte)
  | panicked
deriving DecidableEq

/-- Models `PNGFile::write` (`png.rs` lines 160–177).  `createOk` says
whether `File::create` succeeds; on failure the code panics via `unwrap`.
(Subsequent `write(..)?` errors are propagated as typed errors; the model
covers the fully successful write, whose output is `writtenBytes`.) -/
def PNGFile.write (f : PNGFile) (createOk : Bool) : SaveResult :=
  if createOk then .ok f.writtenBytes else .panicked

/-- Failure modes of `IHDRData::from_chunk`, one constructor per panic
site: `typeNotUtf8` is the `str::from_utf8(..).unwrap()` on line 213,
`notAnIHDRChunk` the `panic!("Not an IHDR chunk!")` on line 215,
`indexOutOfBounds` the slice/index panics during field extraction on lines
218–224 when the payload has fewer than 13 bytes (which of the accesses
panics first depends on the length; they are collapsed into one
constructor), and the remaining constructors are the seven validation
`panic!` sites in order (the two branches on lines 248–256 are the two
messages of the same bit-depth/color-type compatibility rule). -/
inductive IHDRFail where
  | typeNotUtf8
  | notAnIHDRChunk
  | indexOutOfBounds
  | invalidDimensions
  | invalidBitDepth
  | invalidColorType
  | incompatibleBitDepthForColorType
  | unsupportedCompressionMethod
  | unsupportedFilterMethod
  | unsupportedInterlaceMethod
deriving DecidableEq

/-- Decoded IHDR fields (`pub struct IHDRData`, `png.rs` lines 46–54). -/
structure IHDRData where
  width : Nat
  height : Nat
  bit_depth : Byte
  color_type : Byte
  compression_method : Byte
  filter_method : Byte
  interlace_method : Byte
deriving DecidableEq

/-- Result of `IHDRData::from_chunk`: either the decoded data or the panic
that the call aborts with. -/
inductive IHDRResult where
  | ok (d : IHDRData)
  | error (e : IHDRFail)
deriving DecidableEq

/-- Models `IHDRData::from_chunk` (`png.rs` lines 212–291), with each
panic site turned into the corresponding `IHDRFail` value.  Field
extraction (lines 218–224) happens before any validation, so an undersized
payload fails with `indexOutOfBounds` regardless of field values; then the
seven validation rules run in source order, stopping at the first
violation. -/
def IHDRData.from_chunk (c : PNGChunk) : IHDRResult :=
  if validUtf8 c.chunk_type then
    if c.chunk_type = IHDRtag then
      if c.data.length < 13 then .error .indexOutOfBounds
      else
        let width := beVal (c.data.take 4)
        let height := beVal ((c.data.drop 4).take 4)
        let bit_depth := c.data.getD 8 0
        let color_type := c.data.getD 9 0
        let compression_method := c.data.getD 10 0
        let filter_method := c.data.getD 11 0
        let interlace_method := c.data.getD 12 0
        if width = 0 ∨ height = 0 then .error .invalidDimensions
        else if bit_depth ≠ 1 ∧ bit_depth ≠ 2 ∧ bit_depth ≠ 4 ∧ bit_depth ≠ 8 ∧
            bit_depth ≠ 16 then .error .invalidBitDepth
        else if color_type ≠ 0 ∧ color_type ≠ 2 ∧ color_type ≠ 3 ∧ color_type ≠ 4 ∧
            color_type ≠ 6 then .error .invalidColorType
        else if (color_type = 2 ∨ color_type = 4 ∨ color_type = 6) ∧
            (bit_depth ≠ 8 ∧ bit_depth ≠ 16) then .error .incompatibleBitDepthForColorType
        else if color_type = 3 ∧ bit_depth = 16 then .error .incompatibleBitDepthForColorType
        else if compression_method ≠ 0 then .error .unsupportedCompressionMethod
        else if filter_method ≠ 0 then .error .unsupportedFilterMethod
        else if 1 < interlace_method.val then .error .unsupportedInterlaceMethod
        else .ok ⟨width, height, bit_depth, color_type, compression_method,
          filter_method, interlace_method⟩
    else .error .notAnIHDRChunk
  else .error .typeNotUtf8

/-- Decoded tIME fields (`pub struct TimeData`, `png.rs` lines 57–64). -/
structure TimeData where
  year : Nat
  month : Byte
  day : Byte
  hour : Byte
  minute : Byte
  second : Byte
deriving DecidableEq

/-- Result of `PNGFile::get_last_modified`.  `panicked` is the slice/index
out-of-bounds panic on lines 137–142 when the tIME payload has fewer than
7 bytes (which access panics first depends on the length). -/
inductive TimeResult where
  | noTimestamp
  | ok (t : TimeData)
  | panicked
deriving DecidableEq

/-- Models `PNGFile::get_last_modified` (`png.rs` lines 133–154): bytes
0–1 big-endian are the year, bytes 2–6 the month, day, hour, minute and
second, with no range validation on any field. -/
def PNGFile.get_last_modified (f : PNGFile) : TimeResult :=
  match f.time_chunk with
  | none => .noTimestamp
  | some c =>
    if c.data.length < 7 then .panicked
    else .ok ⟨beVal (c.data.take 2), c.data.getD 2 0, c.data.getD 3 0,
      c.data.getD 4 0, c.data.getD 5 0, c.data.getD 6 0⟩

/-! ## Specification-side definitions

These two definitions transcribe the SPEC's words (spec.md §4.2 and §4.4),
to be compared with the source-derived definitions above. -/

/-- Transcribes §4.2's chunk-partitioning algorithm, chunk by chunk: an
"IHDR" chunk is diverted into the header slot (later ones overwrite), a
"tIME" chunk into the timestamp slot likewise, every other chunk including
"IEND" is appended in order, and processing stops with a result exactly
when an "IEND" chunk has been appended.  `none` means the chunk list ran
out before any "IEND" appeared. -/
def specPartitionGo : List PNGChunk → Option PNGChunk → Option PNGChunk → List PNGChunk →
    Option (Option PNGChunk × Option PNGChunk × List PNGChunk)
  | [], _, _, _ => none
  | c :: rest, ihdr, time, os =>
    if c.chunk_type = IHDRtag then specPartitionGo rest (some c) time os
    else if c.chunk_type = tIMEtag then specPartitionGo rest ihdr (some c) os
    else if c.chunk_type = IENDtag then some (ihdr, time, os ++ [c])
    else specPartitionGo rest ihdr time (os ++ [c])

/-- The §4.2 partition starting from empty accumulators. -/
def specChunkPartition (cs : List PNGChunk) :
    Option (Option PNGChunk × Option PNGChunk × List PNGChunk) :=
  specPartitionGo cs none none []

/-- Transcribes §4.4's decoding plus its seven numbered validation rules,
evaluated in the stated order with short-circuiting: (1) width and height
non-zero, (2) bit_depth ∈ {1,2,4,8,16}, (3) color_type ∈ {0,2,3,4,6},
(4) bit-depth/color-type compatibility, (5) compression_method = 0,
(6) filter_method = 0, (7) interlace_method ≤ 1. -/
def specHeaderDecode (payload : List Byte) : IHDRResult :=
  let width := beVal (payload.take 4)
  let height := beVal ((payload.drop 4).take 4)
  let bit_depth := payload.getD 8 0
  let color_type := payload.getD 9 0
  let compression_method := payload.getD 10 0
  let filter_method := payload.getD 11 0
  let interlace_method := payload.getD 12 0
  if ¬ (width ≠ 0 ∧ height ≠ 0) then .error .invalidDimensions
  else if ¬ bit_depth ∈ ([1, 2, 4, 8, 16] : List Byte) then .error .invalidBitDepth
  else if ¬ color_type ∈ ([0, 2, 3, 4, 6] : List Byte) then .error .invalidColorType
  else if ¬ ((color_type ∈ ([2, 4, 6] : List Byte) → bit_depth ∈ ([8, 16] : List Byte)) ∧
      (color_type = 3 → bit_depth ≠ 16)) then .error .incompatibleBitDepthForColorType
  else if ¬ compression_method = 0 then .error .unsupportedCompressionMethod
  else if ¬ filter_method = 0 then .error .unsupportedFilterMethod
  else if ¬ interlace_method.val ≤ 1 then .error .unsupportedInterlaceMethod
  else .ok ⟨width, height, bit_depth, color_type, compression_method,
    filter_method, interlace_method⟩

/-! ## Well-formedness predicates and basic lemmas -/

/-- Chunks as they occur inside a parsed document: 4-byte type and CRC,
payload of exactly the declared length, length a `u32` value, and a type
that survived `str::from_utf8(..).unwrap()`. -/
def goodChunk (c : PNGChunk) : Prop :=
  c.chunk_type.length = 4 ∧ c.crc.length = 4 ∧ c.data.length = c.length ∧
    c.length < 4294967296 ∧ validUtf8 c.chunk_type = true

/-- A chunk that the loop appends to `chunks` (rather than diverting). -/
def ordinaryChunk (c : PNGChunk) : Prop :=
  goodChunk c ∧ c.chunk_type ≠ IHDRtag ∧ c.chunk_type ≠ tIMEtag

/-- Shape of the `chunks` list the loop hands back: the previous
accumulator followed by ordinary non-IEND chunks and one final IEND
chunk. -/
def goodTail (os os' : List PNGChunk) : Prop :=
  ∃ pre fin, os' = os ++ (pre ++ [fin]) ∧
    (∀ c ∈ pre, ordinaryChunk c ∧ c.chunk_type ≠ IENDtag) ∧
    ordinaryChunk fin ∧ fin.chunk_type = IENDtag

theorem take_len_append (l r : List Byte) : (l ++ r).take l.length = l := by
  induction l with
  | nil => rfl
  | cons a t ih => simp [ih]

theorem drop_len_append (l r : List Byte) : (l ++ r).drop l.length = r := by
  induction l with
  | nil => rfl
  | cons a t ih => simp [ih]

/-- A read of exactly the bytes available at the front of the stream. -/
theorem readBuf_exact (n : Nat) (l r : List Byte) (h : l.length = n) :
    readBuf n (l ++ r) = (l, r) := by
  subst h
  simp [readBuf, take_len_append, drop_len_append, Nat.sub_eq_zero_of_le]

theorem readBuf_fst_length (n : Nat) (src : List Byte) :
    (readBuf n src).1.length = n := by
  simp [readBuf]
  omega

theorem be32_length (n : Nat) : (be32 n).length = 4 := rfl

theorem beVal_be32 (n : Nat) (h : n < 4294967296) : beVal (be32 n) = n := by
  simp [beVal, be32, List.foldl]
  omega

theorem beVal_lt (l : List Byte) (h : l.length = 4) : beVal l < 4294967296 := by
  match l, h with
  | [a, b, c, d], _ =>
    have ha := a.isLt
    have hb := b.isLt
    have hc := c.isLt
    have hd := d.isLt
    simp [beVal, List.foldl]
    omega

/-- Decoding an encoded chunk: `read_chunk` is a left inverse of
`writeBytes` on well-formed chunks, leaving the rest of the stream. -/
theorem read_chunk_writeBytes (c : PNGChunk) (rest : List Byte)
    (h4 : c.chunk_type.length = 4) (hcrc : c.crc.length = 4)
    (hd : c.data.length = c.length) (hlt : c.length < 4294967296) :
    read_chunk (c.writeBytes ++ rest) = (c, rest) := by
  have hb : c.writeBytes ++ rest =
      be32 c.length ++ (c.chunk_type ++ (c.data ++ (c.crc ++ rest))) := by
    simp [PNGChunk.writeBytes]
  rw [hb]
  show (let p1 := readBuf 4 (be32 c.length ++ (c.chunk_type ++ (c.data ++ (c.crc ++ rest))))
        let length := beVal p1.1
        let p2 := readBuf 4 p1.2
        let p3 := readBuf length p2.2
        let p4 := readBuf 4 p3.2
        ((⟨length, p2.1, p3.1, p4.1⟩ : PNGChunk), p4.2)) = (c, rest)
  rw [readBuf_exact 4 (be32 c.length) _ (be32_length c.length)]
  simp only [readBuf_exact 4 c.chunk_type _ h4, beVal_be32 c.length hlt]
  rw [readBuf_exact c.length c.data _ hd, readBuf_exact 4 c.crc _ hcrc]

/-- Shape facts that hold for every chunk the loop reads, however
truncated the stream is: the reads zero-pad, so the type and CRC have 4
bytes and `data` has exactly `length` bytes, with `length` a `u32`. -/
theorem read_chunk_shape (src : List Byte) :
    (read_chunk src).1.chunk_type.length = 4 ∧ (read_chunk src).1.crc.length = 4 ∧
      (read_chunk src).1.data.length = (read_chunk src).1.length ∧
      (read_chunk src).1.length < 4294967296 :=
  ⟨readBuf_fst_length 4 _, readBuf_fst_length 4 _, readBuf_fst_length _ _,
    beVal_lt _ (readBuf_fst_length 4 src)⟩

/-- On an exhausted stream the loop never finishes: every iteration reads
the all-zero chunk (type `[0,0,0,0]`, valid UTF-8, not "IEND"), appends it
and continues with the still-empty stream.  This is the Rust loop's
infinite loop at end of file. -/
theorem chunkLoop_nil (fuel : Nat) :
    ∀ ihdr time os, chunkLoop fuel [] ihdr time os = .outOfFuel := by
  induction fuel with
  | zero => intro _ _ _; rfl
  | succ n ih =>
    intro i t os
    exact ih i t (os ++ [⟨0, [0, 0, 0, 0], [], [0, 0, 0, 0]⟩])

/-- One unfolding of the loop when the chunk read this iteration is known
and its type is valid UTF-8. -/
theorem chunkLoop_cons (fuel : Nat) (src : List Byte) (ihdr time : Option PNGChunk)
    (os : List PNGChunk) (c : PNGChunk) (rest : List Byte)
    (hread : read_chunk src = (c, rest)) (hutf : validUtf8 c.chunk_type = true) :
    chunkLoop (fuel + 1) src ihdr time os =
      if c.chunk_type = IHDRtag then chunkLoop fuel rest (some c) time os
      else if c.chunk_type = tIMEtag then chunkLoop fuel rest ihdr (some c) os
      else if c.chunk_type = IENDtag then .done ihdr time (os ++ [c])
      else chunkLoop fuel rest ihdr time (os ++ [c]) := by
  simp only [chunkLoop]
  rw [hread]
  simp [hutf]

/-- The loop, run on the encoding of a list of well-formed chunks (plus
arbitrary trailing bytes), computes exactly the spec's partition of that
list whenever the spec's partition terminates, i.e. whenever the list has
an "IEND" chunk. -/
theorem chunkLoop_encoded :
    ∀ (cs : List PNGChunk) (fuel : Nat) (ihdr time : Option PNGChunk) (os : List PNGChunk)
      (r : Option PNGChunk × Option PNGChunk × List PNGChunk) (extra : List Byte),
      (∀ c ∈ cs, goodChunk c) →
      specPartitionGo cs ihdr time os = some r →
      cs.length ≤ fuel →
      chunkLoop fuel ((cs.map PNGChunk.writeBytes).flatten ++ extra) ihdr time os =
        .done r.1 r.2.1 r.2.2 := by
  intro cs
  induction cs with
  | nil =>
    intro fuel i t os r extra _ hspec _
    simp [specPartitionGo] at hspec
  | cons c rest ih =>
    intro fuel i t os r extra hgood hspec hfuel
    have hc : goodChunk c := hgood c (List.mem_cons_self c rest)
    match fuel with
    | 0 => simp at hfuel
    | fuel + 1 =>
      have hflat : ((c :: rest).map PNGChunk.writeBytes).flatten ++ extra =
          c.writeBytes ++ ((rest.map PNGChunk.writeBytes).flatten ++ extra) := by
        simp
      have hread : read_chunk (((c :: rest).map PNGChunk.writeBytes).flatten ++ extra) =
          (c, (rest.map PNGChunk.writeBytes).flatten ++ extra) := by
        rw [hflat]
        exact read_chunk_writeBytes c _ hc.1 hc.2.1 hc.2.2.1 hc.2.2.2.1
      rw [chunkLoop_cons fuel _ i t os c _ hread hc.2.2.2.2]
      have hgood' : ∀ x ∈ rest, goodChunk x := fun x hx => hgood x (List.mem_cons_of_mem c hx)
      have hfuel' : rest.length ≤ fuel := by simp at hfuel; omega
      simp only [specPartitionGo] at hspec
      by_cases h1 : c.chunk_type = IHDRtag
      · rw [if_pos h1] at hspec ⊢
        exact ih fuel (some c) t os r extra hgood' hspec hfuel'
      · rw [if_neg h1] at hspec ⊢
        by_cases h2 : c.chunk_type = tIMEtag
        · rw [if_pos h2] at hspec ⊢
          exact ih fuel i (some c) os r extra hgood' hspec hfuel'
        · rw [if_neg h2] at hspec ⊢
          by_cases h3 : c.chunk_type = IENDtag
          · rw [if_pos h3] at hspec ⊢
            obtain rfl : (i, t, os ++ [c]) = r := Option.some.inj hspec
            rfl
          · rw [if_neg h3] at hspec ⊢
            exact ih fuel i t (os ++ [c]) r extra hgood' hspec hfuel'

/-- Invariant of every terminating run of the loop: the header slot is
either untouched or holds a well-formed "IHDR" chunk, likewise the
timestamp slot with "tIME", and the chunk list grew by ordinary non-IEND
chunks followed by exactly one final "IEND" chunk. -/
theorem chunkLoop_done_inv :
    ∀ (fuel : Nat) (src : List Byte) (ihdr time : Option PNGChunk) (os : List PNGChunk)
      (ihdr' time' : Option PNGChunk) (os' : List PNGChunk),
      chunkLoop fuel src ihdr time os = .done ihdr' time' os' →
      (ihdr' = ihdr ∨ ∃ h, ihdr' = some h ∧ goodChunk h ∧ h.chunk_type = IHDRtag) ∧
      (time' = time ∨ ∃ u, time' = some u ∧ goodChunk u ∧ u.chunk_type = tIMEtag) ∧
      goodTail os os' := by
  intro fuel
  induction fuel with
  | zero =>
    intro src i t os i' t' os' h
    simp [chunkLoop] at h
  | succ n ih =>
    intro src i t os i' t' os' h
    simp only [chunkLoop] at h
    have hshape := read_chunk_shape src
    by_cases hutf : validUtf8 (read_chunk src).1.chunk_type = true
    · rw [if_pos hutf] at h
      have hgc : goodChunk (read_chunk src).1 :=
        ⟨hshape.1, hshape.2.1, hshape.2.2.1, hshape.2.2.2, hutf⟩
      by_cases h1 : (read_chunk src).1.chunk_type = IHDRtag
      · rw [if_pos h1] at h
        obtain ⟨hi, ht, htail⟩ := ih _ _ _ _ _ _ _ h
        refine ⟨?_, ht, htail⟩
        rcases hi with hi | hi
        · exact Or.inr ⟨_, hi, hgc, h1⟩
        · exact Or.inr hi
      · rw [if_neg h1] at h
        by_cases h2 : (read_chunk src).1.chunk_type = tIMEtag
        · rw [if_pos h2] at h
          obtain ⟨hi, ht, htail⟩ := ih _ _ _ _ _ _ _ h
          refine ⟨hi, ?_, htail⟩
          rcases ht with ht | ht
          · exact Or.inr ⟨_, ht, hgc, h2⟩
          · exact Or.inr ht
        · rw [if_neg h2] at h
          by_cases h3 : (read_chunk src).1.chunk_type = IENDtag
          · rw [if_pos h3] at h
            injection h with e1 e2 e3
            subst e1; subst e2; subst e3
            exact ⟨Or.inl rfl, Or.inl rfl, [], (read_chunk src).1, by simp,
              by intro x hx; simp at hx, ⟨hgc, h1, h2⟩, h3⟩
          · rw [if_neg h3] at h
            obtain ⟨hi, ht, pre, fin, heq, hpre, hfin, hfintype⟩ := ih _ _ _ _ _ _ _ h
            refine ⟨hi, ht, (read_chunk src).1 :: pre, fin, by simp [heq], ?_, hfin, hfintype⟩
            intro x hx
            rcases List.mem_cons.mp hx with rfl | hx
            · exact ⟨⟨hgc, h1, h2⟩, h3⟩
            · exact hpre x hx
    · rw [if_neg hutf] at h
      simp at h

/-- The spec partition runs straight through a block of ordinary non-IEND
chunks and stops at a final "IEND" chunk, appending all of them. -/
theorem specPartitionGo_ordinary :
    ∀ (pre : List PNGChunk) (fin : PNGChunk),
      (∀ c ∈ pre, ordinaryChunk c ∧ c.chunk_type ≠ IENDtag) →
      fin.chunk_type = IENDtag →
      ∀ ihdr time os, specPartitionGo (pre ++ [fin]) ihdr time os =
        some (ihdr, time, os ++ (pre ++ [fin])) := by
  intro pre
  induction pre with
  | nil =>
    intro fin _ hfin i t os
    have e1 : IENDtag ≠ IHDRtag := by decide
    have e2 : IENDtag ≠ tIMEtag := by decide
    simp [specPartitionGo, hfin, e1, e2]
  | cons c pre ih =>
    intro fin hpre hfin i t os
    obtain ⟨⟨_, h1, h2⟩, h3⟩ := hpre c (List.mem_cons_self c pre)
    have hrest : ∀ x ∈ pre, ordinaryChunk x ∧ x.chunk_type ≠ IENDtag :=
      fun x hx => hpre x (List.mem_cons_of_mem c hx)
    simp only [List.cons_append, specPartitionGo, if_neg h1, if_neg h2, if_neg h3]
    exact (ih fin hrest hfin i t (os ++ [c])).trans (by simp)

/-- Like `specPartitionGo_ordinary`, but the block may also contain "tIME"
chunks (which get diverted): as long as no "IHDR" chunk appears before the
final "IEND", the header slot keeps its incoming value. -/
theorem specPartitionGo_noIHDR :
    ∀ (pre : List PNGChunk) (fin : PNGChunk),
      (∀ c ∈ pre, c.chunk_type ≠ IHDRtag ∧ c.chunk_type ≠ IENDtag) →
      fin.chunk_type = IENDtag →
      ∀ ihdr time os, ∃ time' os',
        specPartitionGo (pre ++ [fin]) ihdr time os = some (ihdr, time', os') := by
  intro pre
  induction pre with
  | nil =>
    intro fin _ hfin i t os
    have e1 : IENDtag ≠ IHDRtag := by decide
    have e2 : IENDtag ≠ tIMEtag := by decide
    exact ⟨t, os ++ [fin], by simp [specPartitionGo, hfin, e1, e2]⟩
  | cons c pre ih =>
    intro fin hpre hfin i t os
    obtain ⟨h1, h3⟩ := hpre c (List.mem_cons_self c pre)
    have hrest : ∀ x ∈ pre, x.chunk_type ≠ IHDRtag ∧ x.chunk_type ≠ IENDtag :=
      fun x hx => hpre x (List.mem_cons_of_mem c hx)
    by_cases h2 : c.chunk_type = tIMEtag
    · obtain ⟨t', os', he⟩ := ih fin hrest hfin i (some c) os
      refine ⟨t', os', ?_⟩
      simp only [List.cons_append, specPartitionGo, if_neg h1, if_pos h2]
      exact he
    · obtain ⟨t', os', he⟩ := ih fin hrest hfin i t (os ++ [c])
      refine ⟨t', os', ?_⟩
      simp only [List.cons_append, specPartitionGo, if_neg h1, if_neg h2, if_neg h3]
      exact he

/-- Unfolds `PNGFile.from_file` when the stream starts with the
signature. -/
theorem from_file_sig_ok (fuel : Nat) (rest : List Byte) :
    PNGFile.from_file fuel (pngHeaderBytes ++ rest) =
      (match chunkLoop fuel rest none none [] with
        | LoopResult.done (some ihdr) time chunks => LoadResult.ok ⟨ihdr, time, chunks⟩
        | LoopResult.done none _ _ => LoadResult.missingHeaderChunk
        | LoopResult.panicked => LoadResult.panicked
        | LoopResult.outOfFuel => LoadResult.outOfFuel) := by
  unfold PNGFile.from_file
  rw [readBuf_exact 8 pngHeaderBytes rest rfl]
  rfl

/-- If the zero-padded first 8 bytes equal the signature then the first 8
bytes of the stream itself do (the signature contains no zero byte, so the
padding can never help a short stream pass the check). -/
theorem sig_of_readBuf (src : List Byte)
    (h : (readBuf 8 src).1 = pngHeaderBytes) : src.take 8 = pngHeaderBytes := by
  by_cases hlen : 8 ≤ src.length
  · have hz : 8 - src.length = 0 := by omega
    simpa [readBuf, hz] using h
  · exfalso
    have hfst : (readBuf 8 src).1 = src ++ List.replicate (8 - src.length) (0 : Byte) := by
      simp [readBuf, List.take_of_length_le (show src.length ≤ 8 by omega)]
    rw [hfst] at h
    have h7 := congrArg (fun l : List Byte => l[7]?) h
    simp only [List.getElem?_append_right (show src.length ≤ 7 by omega),
      List.getElem?_replicate] at h7
    rw [if_pos (show 7 - src.length < 8 - src.length by omega)] at h7
    have h10 : pngHeaderBytes[7]? = some (10 : Byte) := rfl
    rw [h10] at h7
    exact absurd (Option.some.inj h7) (by decide)

/-- Everything `from_file` guarantees about a document it returns: the
header chunk is a well-formed "IHDR" chunk, the timestamp chunk (if any)
a well-formed "tIME" chunk, and `chunks` consists of ordinary non-IEND
chunks followed by one final "IEND" chunk. -/
theorem from_file_ok_inv (fuel : Nat) (src : List Byte) (f : PNGFile)
    (h : PNGFile.from_file fuel src = .ok f) :
    goodChunk f.ihdr_chunk ∧ f.ihdr_chunk.chunk_type = IHDRtag ∧
      (∀ u, f.time_chunk = some u → goodChunk u ∧ u.chunk_type = tIMEtag) ∧
      goodTail [] f.chunks := by
  simp only [PNGFile.from_file] at h
  by_cases hsig : (readBuf 8 src).1 = pngHeaderBytes
  · rw [if_pos hsig] at h
    cases hloop : chunkLoop fuel (readBuf 8 src).2 none none [] with
    | done ihdr time chunks =>
      rw [hloop] at h
      cases ihdr with
      | none => exact absurd h (by simp)
      | some x =>
        obtain ⟨hi, ht, htail⟩ := chunkLoop_done_inv fuel _ none none [] _ _ _ hloop
        have he : (⟨x, time, chunks⟩ : PNGFile) = f := by
          simpa using h
        subst he
        rcases hi with hi | ⟨hh, hh1, hh2, hh3⟩
        · exact absurd hi (by simp)
        · obtain rfl : x = hh := by simpa using hh1
          refine ⟨hh2, hh3, ?_, htail⟩
          intro u hu
          rcases ht with ht | ⟨v, hv1, hv2, hv3⟩
          · rw [show (⟨x, time, chunks⟩ : PNGFile).time_chunk = time from rfl, ht] at hu
            exact absurd hu (by simp)
          · rw [show (⟨x, time, chunks⟩ : PNGFile).time_chunk = time from rfl, hv1] at hu
            obtain rfl : v = u := Option.some.inj hu
            exact ⟨hv2, hv3⟩
    | panicked => rw [hloop] at h; exact absurd h (by simp)
    | outOfFuel => rw [hloop] at h; exact absurd h (by simp)
  · rw [if_neg hsig] at h
    exact absurd h (by simp)

/-- Every chunk stored in a document with the `from_file` invariants is
well-formed. -/
theorem goodTail_good {os : List PNGChunk} (h : goodTail [] os) :
    ∀ c ∈ os, goodChunk c := by
  obtain ⟨pre, fin, heq, hpre, hfin, _⟩ := h
  intro c hc
  rw [heq] at hc
  simp only [List.nil_append, List.mem_append, List.mem_singleton] at hc
  rcases hc with hc | rfl
  · exact (hpre c hc).1.1
  · exact hfin.1

/-- Re-parsing the bytes written by `PNGFile::write`: any document
satisfying the `from_file` invariants is reproduced exactly, given fuel
for its chunk count. -/
theorem from_file_writtenBytes (f : PNGFile)
    (hihdr : goodChunk f.ihdr_chunk) (hith : f.ihdr_chunk.chunk_type = IHDRtag)
    (htime : ∀ u, f.time_chunk = some u → goodChunk u ∧ u.chunk_type = tIMEtag)
    (htail : goodTail [] f.chunks) :
    ∀ fuel, 1 + f.time_chunk.toList.length + f.chunks.length ≤ fuel →
      PNGFile.from_file fuel f.writtenBytes = .ok f := by
  intro fuel hfuel
  obtain ⟨pre, fin, heq, hpre, hfin, hfintype⟩ := htail
  rw [List.nil_append] at heq
  have hcs : f.writtenBytes = pngHeaderBytes ++
      (((f.ihdr_chunk :: (f.time_chunk.toList ++ f.chunks)).map PNGChunk.writeBytes).flatten
        ++ []) := by
    cases htc : f.time_chunk with
    | none => simp [PNGFile.writtenBytes, htc]
    | some u => simp [PNGFile.writtenBytes, htc]
  have hspec : specPartitionGo (f.ihdr_chunk :: (f.time_chunk.toList ++ f.chunks))
      none none [] = some (some f.ihdr_chunk, f.time_chunk, f.chunks) := by
    simp only [specPartitionGo, if_pos hith]
    cases htc : f.time_chunk with
    | none =>
      simp only [htc, Option.toList_none, List.nil_append]
      rw [heq]
      exact (specPartitionGo_ordinary pre fin hpre hfintype _ _ []).trans (by simp [← heq])
    | some u =>
      obtain ⟨hgu, hut⟩ := htime u htc
      have hu1 : u.chunk_type ≠ IHDRtag := by rw [hut]; decide
      simp only [htc, Option.toList_some, List.cons_append, List.nil_append,
        specPartitionGo, if_neg hu1, if_pos hut]
      rw [heq]
      exact (specPartitionGo_ordinary pre fin hpre hfintype _ _ []).trans (by simp [← heq])
  have hgood : ∀ c ∈ f.ihdr_chunk :: (f.time_chunk.toList ++ f.chunks), goodChunk c := by
    intro c hc
    rcases List.mem_cons.mp hc with rfl | hc
    · exact hihdr
    · rcases List.mem_append.mp hc with hc | hc
      · cases htc : f.time_chunk with
        | none => rw [htc] at hc; simp at hc
        | some u =>
          rw [htc] at hc
          simp only [Option.toList_some, List.mem_singleton] at hc
          subst hc
          exact (htime c htc).1
      · exact goodTail_good ⟨pre, fin, by simpa using heq, hpre, hfin, hfintype⟩ c hc
  have hlen : (f.ihdr_chunk :: (f.time_chunk.toList ++ f.chunks)).length ≤ fuel := by
    simp only [List.length_cons, List.length_append]
    omega
  rw [hcs, from_file_sig_ok]
  rw [chunkLoop_encoded _ fuel none none [] (some f.ihdr_chunk, f.time_chunk, f.chunks) []
    hgood hspec hlen]

/-! ## Concrete sample data used by witnesses -/

/-- A minimal well-formed IHDR chunk (1×1, bit depth 8, greyscale). -/
def sampleIHDR : PNGChunk := ⟨13, IHDRtag, [0, 0, 0, 1, 0, 0, 0, 1, 8, 0, 0, 0, 0], [1, 2, 3, 4]⟩

/-- A second IHDR chunk (2×2), used to exhibit duplicate overwriting. -/
def sampleIHDR2 : PNGChunk := ⟨13, IHDRtag, [0, 0, 0, 2, 0, 0, 0, 2, 8, 0, 0, 0, 0], [9, 9, 9, 9]⟩

/-- A tIME chunk for 2021-12-31 23:59:59. -/
def sampleTime : PNGChunk := ⟨7, tIMEtag, [7, 229, 12, 31, 23, 59, 59], [0, 0, 0, 0]⟩

/-- A tIME chunk whose payload has only 3 of the 7 expected bytes. -/
def shortTimeChunk : PNGChunk := ⟨3, tIMEtag, [7, 229, 12], [0, 0, 0, 0]⟩

/-- An ordinary data chunk (type "IDAT"). -/
def sampleIDAT : PNGChunk := ⟨2, [73, 68, 65, 84], [17, 34], [0, 0, 0, 1]⟩

/-- The terminal chunk. -/
def sampleIEND : PNGChunk := ⟨0, IENDtag, [], [5, 6, 7, 8]⟩

/-- An IHDR-typed chunk with only 5 payload bytes. -/
def shortIHDRChunk : PNGChunk := ⟨5, IHDRtag, [0, 0, 0, 0, 0], [0, 0, 0, 0]⟩

/-- A minimal complete PNG stream: signature, IHDR, IEND. -/
def sampleSrc : List Byte := pngHeaderBytes ++ sampleIHDR.writeBytes ++ sampleIEND.writeBytes

/-- The document `from_file` produces from `sampleSrc`. -/
def sampleDoc : PNGFile := ⟨sampleIHDR, none, [sampleIEND]⟩

/-- A correctly signed stream whose single chunk declares a 5-byte payload
but is followed by no bytes at all (truncation at the payload read). -/
def truncatedSrc : List Byte := pngHeaderBytes ++ [0, 0, 0, 5, 73, 68, 65, 84]

/-- A correctly signed stream whose first chunk has the non-UTF-8 type tag
`[0xFF, 65, 65, 65]`. -/
def badTagSrc : List Byte := pngHeaderBytes ++ [0, 0, 0, 0, 255, 65, 65, 65, 0, 0, 0, 0]

/-! ## Claim theorems -/

/-- C1: for every document successfully produced by load, writing it with
save and re-loading the saved bytes yields a document whose header chunk,
optional timestamp chunk, and ordered list of other chunks are
field-for-field identical to the original (`PNGFile` equality is
field-for-field equality of all chunks, each compared on `length`,
`chunk_type`, `data` and `crc`). -/
theorem load_save_load_roundtrip (fuel : Nat) (src : List Byte) (f : PNGFile)
    (h : PNGFile.from_file fuel src = .ok f) :
    PNGFile.write f true = .ok f.writtenBytes ∧
      ∀ fuel₂, 1 + f.time_chunk.toList.length + f.chunks.length ≤ fuel₂ →
        PNGFile.from_file fuel₂ f.writtenBytes = .ok f := by
  obtain ⟨h1, h2, h3, h4⟩ := from_file_ok_inv fuel src f h
  exact ⟨rfl, from_file_writtenBytes f h1 h2 h3 h4⟩

/-- Witness for C1: a two-chunk file loads, and re-loading its written
bytes gives back the same document. -/
theorem load_save_load_roundtrip_witness :
    PNGFile.from_file 2 sampleSrc = .ok sampleDoc ∧
      PNGFile.from_file 2 sampleDoc.writtenBytes = .ok sampleDoc :=
  ⟨by decide, (load_save_load_roundtrip 2 sampleSrc sampleDoc (by decide)).2 2 (by decide)⟩

/-- C2 (documents the divergence): on the truncated stream `truncatedSrc`
the loader runs out of any amount of fuel, i.e. the Rust loop never
terminates — it zero-fills the missing payload bytes without error and
then reads empty all-zero chunks forever.  No `TruncatedStream`-style
failure is possible: the code's only error value is `InvalidPNGFormat`,
and the `.unwrap()`s never fire because `File::read` returns `Ok` at end
of file. -/
theorem load_truncated_diverges :
    ∀ fuel, PNGFile.from_file fuel truncatedSrc = .outOfFuel := by
  intro fuel
  rw [show truncatedSrc =
    pngHeaderBytes ++ [0, 0, 0, 5, 73, 68, 65, 84] from rfl, from_file_sig_ok]
  cases fuel with
  | zero => rfl
  | succ n =>
    have h : chunkLoop (n + 1) [0, 0, 0, 5, 73, 68, 65, 84] none none [] = .outOfFuel :=
      chunkLoop_nil n none none [⟨5, [73, 68, 65, 84], [0, 0, 0, 0, 0], [0, 0, 0, 0]⟩]
    rw [h]

/-- C3: any stream whose first 8 bytes differ from the fixed signature in
any position — including a stream shorter than 8 bytes, for which
`take 8` is the whole stream and can never equal the 8-byte signature —
fails with the signature-mismatch error, whatever the rest of the stream
contains. -/
theorem load_invalid_signature (src : List Byte) (fuel : Nat)
    (h : src.take 8 ≠ pngHeaderBytes) :
    PNGFile.from_file fuel src = .invalidSignature := by
  simp only [PNGFile.from_file]
  rw [if_neg (fun hc => h (sig_of_readBuf src hc))]

/-- Witness for C3 at the three-byte stream `[1, 2, 3]`. -/
theorem load_invalid_signature_witness :
    PNGFile.from_file 3 [1, 2, 3] = .invalidSignature :=
  load_invalid_signature [1, 2, 3] 3 (by decide)

/-- C4: a correctly signed stream whose chunks (well-formed, arbitrary
trailing bytes allowed after the terminal chunk) contain no "IHDR" before
the terminal "IEND" fails with the missing-header error and yields no
document.  The chunks before "IEND" may include "tIME" chunks. -/
theorem load_missing_header (pre : List PNGChunk) (fin : PNGChunk) (extra : List Byte)
    (hpre : ∀ c ∈ pre, goodChunk c ∧ c.chunk_type ≠ IHDRtag ∧ c.chunk_type ≠ IENDtag)
    (hfin : goodChunk fin) (hft : fin.chunk_type = IENDtag) :
    ∀ fuel, pre.length + 1 ≤ fuel →
      PNGFile.from_file fuel
          (pngHeaderBytes ++ (((pre ++ [fin]).map PNGChunk.writeBytes).flatten ++ extra)) =
        .missingHeaderChunk := by
  intro fuel hfuel
  obtain ⟨t', os', hsp⟩ := specPartitionGo_noIHDR pre fin
    (fun c hc => ⟨(hpre c hc).2.1, (hpre c hc).2.2⟩) hft none none []
  have hgood : ∀ c ∈ pre ++ [fin], goodChunk c := by
    intro c hc
    rcases List.mem_append.mp hc with hc | hc
    · exact (hpre c hc).1
    · rw [List.mem_singleton] at hc
      subst hc
      exact hfin
  have hlen : (pre ++ [fin]).length ≤ fuel := by
    simp only [List.length_append, List.length_singleton]
    omega
  rw [from_file_sig_ok]
  rw [chunkLoop_encoded (pre ++ [fin]) fuel none none [] (none, t', os') extra hgood hsp hlen]

/-- Witness for C4: a stream whose only chunk is "IEND". -/
theorem load_missing_header_witness :
    PNGFile.from_file 1
        (pngHeaderBytes ++ ((([] ++ [sampleIEND]).map PNGChunk.writeBytes).flatten ++ [])) =
      .missingHeaderChunk :=
  load_missing_header [] sampleIEND []
    (by intro c hc; exact absurd hc (List.not_mem_nil c))
    (by exact ⟨by decide, by decide, by decide, by decide, by decide⟩) (by decide) 1 (by decide)

/-- C5: on encoded well-formed chunk streams the loader's loop computes
exactly the spec's partition — "IHDR" chunks diverted (never appended,
later duplicates overwriting), "tIME" chunks likewise, all others
including "IEND" appended in encounter order, stopping exactly at the
first appended "IEND" — and, conversely, any terminating run of the loop
ends with exactly one appended "IEND" chunk preceded only by ordinary
non-IEND chunks. -/
theorem chunk_loop_partitions :
    (∀ (cs : List PNGChunk) (fuel : Nat)
        (r : Option PNGChunk × Option PNGChunk × List PNGChunk),
        (∀ c ∈ cs, goodChunk c) → specChunkPartition cs = some r → cs.length ≤ fuel →
        chunkLoop fuel ((cs.map PNGChunk.writeBytes).flatten) none none [] =
          .done r.1 r.2.1 r.2.2) ∧
    (∀ fuel src ihdr time os ihdr' time' os',
        chunkLoop fuel src ihdr time os = .done ihdr' time' os' → goodTail os os') := by
  constructor
  · intro cs fuel r hgood hspec hlen
    have h := chunkLoop_encoded cs fuel none none [] r [] hgood hspec hlen
    simpa using h
  · intro fuel src i t os i' t' os' h
    exact (chunkLoop_done_inv fuel src i t os i' t' os' h).2.2

/-- Witness for C5: a stream with a duplicate "IHDR" and a "tIME" chunk —
the second "IHDR" wins, both are diverted, the ordinary chunks keep their
order and the loop stops at "IEND". -/
theorem chunk_loop_partitions_witness :
    chunkLoop 5
        (([sampleIHDR, sampleTime, sampleIDAT, sampleIHDR2, sampleIEND].map
          PNGChunk.writeBytes).flatten) none none [] =
      .done (some sampleIHDR2) (some sampleTime) [sampleIDAT, sampleIEND] :=
  chunk_loop_partitions.1 [sampleIHDR, sampleTime, sampleIDAT, sampleIHDR2, sampleIEND] 5
    (some sampleIHDR2, some sampleTime, [sampleIDAT, sampleIEND])
    (by intro c hc; fin_cases hc <;> exact ⟨by decide, by decide, by decide, by decide, by decide⟩)
    (by decide) (by decide)

/-- C7 (documents the panics): calling the header interpreter on a chunk
whose type is not "IHDR" hits the `panic!("Not an IHDR chunk!")` abort,
and calling it on an "IHDR" chunk with a payload shorter than 13 bytes
hits the slice/index out-of-bounds abort — neither failure is a
recoverable result value in the code. -/
theorem from_chunk_panics :
    IHDRData.from_chunk sampleIDAT = .error .notAnIHDRChunk ∧
      IHDRData.from_chunk shortIHDRChunk = .error .indexOutOfBounds :=
  ⟨by decide, by decide⟩

/-- C8 (field decoding, plus the panic on short payloads): the spec's
example timestamp payload decodes to 2021-12-31 23:59:59, a 3-byte
payload hits the out-of-bounds abort instead of any recoverable
truncation error, and in general any payload with at least 7 bytes
decodes with year = big-endian bytes 0–1 and month/day/hour/minute/second
= bytes 2–6, with no range validation. -/
theorem get_last_modified_spec :
    PNGFile.get_last_modified ⟨sampleIHDR, some sampleTime, [sampleIEND]⟩ =
        .ok ⟨2021, 12, 31, 23, 59, 59⟩ ∧
      PNGFile.get_last_modified ⟨sampleIHDR, some shortTimeChunk, [sampleIEND]⟩ = .panicked ∧
      ∀ (f : PNGFile) (c : PNGChunk), f.time_chunk = some c → 7 ≤ c.data.length →
        PNGFile.get_last_modified f =
          .ok ⟨beVal (c.data.take 2), c.data.getD 2 0, c.data.getD 3 0, c.data.getD 4 0,
            c.data.getD 5 0, c.data.getD 6 0⟩ := by
  refine ⟨by decide, by decide, ?_⟩
  intro f c hc hlen
  simp only [PNGFile.get_last_modified, hc]
  rw [if_neg (by omega)]

/-- Witness for C8's general decoding law, applied to the sample
document. -/
theorem get_last_modified_spec_witness :
    PNGFile.get_last_modified ⟨sampleIHDR, some sampleTime, [sampleIEND]⟩ =
      .ok ⟨beVal (sampleTime.data.take 2), sampleTime.data.getD 2 0, sampleTime.data.getD 3 0,
        sampleTime.data.getD 4 0, sampleTime.data.getD 5 0, sampleTime.data.getD 6 0⟩ :=
  get_last_modified_spec.2.2 ⟨sampleIHDR, some sampleTime, [sampleIEND]⟩ sampleTime rfl
    (by decide)

/-- C9 (write order, and the panic on create failure): for any loaded
document, a failed create/truncate of the destination panics (aborting
the process, not returning a typed error), while a successful write emits
the signature, then the header chunk, then the timestamp chunk if
present, then the stored chunks in order — whose last element is the
"IEND" chunk, so "IEND" is emitted last. -/
theorem write_order_and_create_panic (fuel : Nat) (src : List Byte) (f : PNGFile)
    (h : PNGFile.from_file fuel src = .ok f) :
    PNGFile.write f false = .panicked ∧
      PNGFile.write f true = .ok (pngHeaderBytes ++ f.ihdr_chunk.writeBytes ++
        (match f.time_chunk with | some t => t.writeBytes | none => []) ++
        (f.chunks.map PNGChunk.writeBytes).flatten) ∧
      ∃ pre fin, f.chunks = pre ++ [fin] ∧ fin.chunk_type = IENDtag := by
  obtain ⟨-, -, -, pre, fin, heq, -, -, hft⟩ := from_file_ok_inv fuel src f h
  exact ⟨rfl, rfl, pre, fin, by simpa using heq, hft⟩

/-- Witness for C9 at the sample document. -/
theorem write_order_and_create_panic_witness :
    PNGFile.write sampleDoc false = .panicked :=
  (write_order_and_create_panic 2 sampleSrc sampleDoc (by decide)).1

/-- C10: loading a correctly signed stream that contains a chunk whose
4-byte type tag is not valid UTF-8 (here `[0xFF, 65, 65, 65]`) panics —
the type tag goes through `str::from_utf8(..).unwrap()` before any
comparison — rather than failing with a typed error or passing the chunk
through. -/
theorem load_panics_on_nonUtf8_type :
    ∀ fuel, PNGFile.from_file (fuel + 1) badTagSrc = .panicked := by
  intro fuel
  rw [show badTagSrc =
    pngHeaderBytes ++ [0, 0, 0, 0, 255, 65, 65, 65, 0, 0, 0, 0] from rfl, from_file_sig_ok]
  have h : chunkLoop (fuel + 1) [0, 0, 0, 0, 255, 65, 65, 65, 0, 0, 0, 0] none none [] =
      .panicked := rfl
  rw [h]

set_option maxHeartbeats 3200000 in
/-- C6: on any "IHDR" chunk with a 13-byte payload (the extraction reads
exactly bytes 0–12), the source's validation cascade equals the spec's
seven rules evaluated in the stated order with short-circuiting — each
rule reporting its own distinct failure kind, and success returning the
decoded fields.  (Payloads of at least 13 bytes behave identically; the
hypothesis keeps the claim's phrasing.) -/
theorem from_chunk_matches_spec (c : PNGChunk) (htype : c.chunk_type = IHDRtag)
    (hlen : c.data.length = 13) :
    IHDRData.from_chunk c = specHeaderDecode c.data := by
  have hutf : validUtf8 IHDRtag = true := by decide
  simp only [IHDRData.from_chunk, specHeaderDecode, htype, hutf, if_true, hlen]
  norm_num
  generalize beVal (List.take 4 c.data) = w
  generalize beVal (List.take 4 (List.drop 4 c.data)) = ht
  generalize c.data[8]?.getD 0 = bd
  generalize c.data[9]?.getD 0 = ct
  generalize c.data[10]?.getD 0 = cm
  generalize c.data[11]?.getD 0 = fm
  generalize c.data[12]?.getD 0 = im
  by_cases h1 : w = 0 ∨ ht = 0
  · have h1' : ¬w = 0 → ht = 0 := by tauto
    rw [if_pos h1, if_pos h1']
  · have h1' : ¬(¬w = 0 → ht = 0) := by tauto
    rw [if_neg h1, if_neg h1']
    by_cases h2 : ¬bd = 1 ∧ ¬bd = 2 ∧ ¬bd = 4 ∧ ¬bd = 8 ∧ ¬bd = 16
    · rw [if_pos h2, if_pos h2]
    · rw [if_neg h2, if_neg h2]
      by_cases h3 : ¬ct = 0 ∧ ¬ct = 2 ∧ ¬ct = 3 ∧ ¬ct = 4 ∧ ¬ct = 6
      · rw [if_pos h3, if_pos h3]
      · rw [if_neg h3, if_neg h3]
        by_cases h4 : (ct = 2 ∨ ct = 4 ∨ ct = 6) ∧ ¬bd = 8 ∧ ¬bd = 16
        · have hC : (ct = 2 ∨ ct = 4 ∨ ct = 6 → bd = 8 ∨ bd = 16) → ct = 3 ∧ bd = 16 := by
            tauto
          rw [if_pos h4, if_pos hC]
        · rw [if_neg h4]
          by_cases h5 : ct = 3 ∧ bd = 16
          · have hC : (ct = 2 ∨ ct = 4 ∨ ct = 6 → bd = 8 ∨ bd = 16) → ct = 3 ∧ bd = 16 :=
              fun _ => h5
            rw [if_pos h5, if_pos hC]
          · have hC : ¬((ct = 2 ∨ ct = 4 ∨ ct = 6 → bd = 8 ∨ bd = 16) → ct = 3 ∧ bd = 16) := by
              tauto
            rw [if_neg h5, if_neg hC]

/-- Witness for C6: the spec's own success example — width 10, height 10,
bit depth 8, greyscale — decodes identically under the source cascade and
the spec rules, to the expected fields. -/
theorem from_chunk_matches_spec_witness :
    IHDRData.from_chunk ⟨13, IHDRtag, [0, 0, 0, 10, 0, 0, 0, 10, 8, 0, 0, 0, 0], [0, 0, 0, 0]⟩ =
      IHDRResult.ok ⟨10, 10, 8, 0, 0, 0, 0⟩ :=
  (from_chunk_matches_spec ⟨13, IHDRtag, [0, 0, 0, 10, 0, 0, 0, 10, 8, 0, 0, 0, 0], [0, 0, 0, 0]⟩
    rfl (by decide)).trans (by decide)
